import Mathlib

set_option maxHeartbeats 1000000

/-!
Verification development for the `SlackBot` core of `src/bot.py`:
a shallow embedding of the bot's data model (mutable state initialised in
`__init__`), the rate-limited sender `say`, the correlated sender
`say_complete`, the unprocessed-event buffer operations, the dispatch loop
of `start`/`start_loop`, the directory lookups, and the wire-text codec.
All definitions are translated directly from the Python source; theorems
settle the frozen specification claims against them.
-/

/-- An inbound RTM event, modelling exactly the dictionary fields the bot
inspects: presence and truthiness of the `"ok"` key, the `"reply_to"` id,
the `"ts"` value when it is a string, and the `"error"`→`"msg"` string. -/
structure Event where
  ok : Option Bool
  replyTo : Option Nat
  ts : Option (List Char)
  errMsg : Option (List Char)
deriving DecidableEq

/-- One entry of `self.client.server.channels`: fields `id` and `name`. -/
structure ChannelEntry where
  id : List Char
  name : List Char
deriving DecidableEq

/-- One entry of `self.client.server.users`: fields `id`, `name`, `real_name`. -/
structure UserEntry where
  id : List Char
  name : List Char
  real_name : List Char
deriving DecidableEq

/-- A Python value passed as `sendable_text` to `say`: either a `str`
(whose characters we keep) or a non-string value. -/
inductive PyObj
  | str (s : List Char)
  | nonStr
deriving DecidableEq

/-- The mutable `SlackBot` state set up in `__init__` (bot.py lines 20-23):
`max_message_id`, the `unprocessed_messages` deque, `last_say_time` and
`bot_user_id`. -/
structure SlackBot where
  max_message_id : Nat
  unprocessed : List Event
  last_say_time : ℚ
  bot_user_id : Option (List Char)
deriving DecidableEq

/-- The state right after `__init__`. -/
def initBot : SlackBot :=
  { max_message_id := 1, unprocessed := [], last_say_time := 0, bot_user_id := none }

/-- `SlackBot.get_channel_name_by_id` (lines 154-159): linear scan of the
channel directory, `none` when the id is unknown. -/
def get_channel_name_by_id (channels : List ChannelEntry) (channel_id : List Char) :
    Option (List Char) :=
  (channels.find? (fun e => e.id == channel_id)).map (fun e => e.name)

/-- `SlackBot.get_user_name_by_id` (lines 177-182). -/
def get_user_name_by_id (users : List UserEntry) (user_id : List Char) :
    Option (List Char) :=
  (users.find? (fun e => e.id == user_id)).map (fun e => e.name)

/-- The rate-limiting block of `say` (lines 92-98).  Given the stored
`last_say_time` and the clock sample `current_time`, it returns the
wall-clock moment the message is handed to the websocket (after the
`time.sleep(max(0, 1 - (current_time - self.last_say_time)))` back-pressure
sleep) together with the updated `last_say_time`. -/
def sayRateStep (last current : ℚ) : ℚ × ℚ :=
  if current - last < 1 then (current + max 0 (1 - (current - last)), last + 1)
  else (current, current)

/-- Hand-off times of a sequence of back-to-back `say` calls sampled at the
given clock times, threading `last_say_time` through `sayRateStep`. -/
def runSendTimes : ℚ → List ℚ → List ℚ
  | _, [] => []
  | last, t :: ts => (sayRateStep last t).1 :: runSendTimes (sayRateStep last t).2 ts

/-- The two precondition failures of `say` (lines 89-90): the channel-id
assert and the `isinstance(sendable_text, str)` assert. -/
inductive SayErr
  | invalidChannel
  | invalidText
deriving DecidableEq

/-- `SlackBot.say` (lines 87-113): the channel precondition assert, the
type assert, the rate-limiting block, assignment of `max_message_id` as the
message id, the increment, and the websocket hand-off.  Returns the message
id, the hand-off time and the updated bot state; a precondition failure
raises before any state is mutated or anything is sent. -/
def sayFull (channels : List ChannelEntry) (b : SlackBot) (channel_id : List Char)
    (sendable_text : PyObj) (now : ℚ) : Except SayErr (Nat × ℚ × SlackBot) :=
  match get_channel_name_by_id channels channel_id with
  | none => Except.error SayErr.invalidChannel
  | some _ =>
    match sendable_text with
    | PyObj.nonStr => Except.error SayErr.invalidText
    | PyObj.str _ =>
      Except.ok (b.max_message_id, (sayRateStep b.last_say_time now).1,
        { b with
            max_message_id := b.max_message_id + 1,
            last_say_time := (sayRateStep b.last_say_time now).2 })

/-- Run a list of `say` calls (channel id, text, clock sample); rejected
calls leave the state untouched, accepted calls contribute their returned
message id.  Produces the id list and the final state. -/
def runSayCallsSt (channels : List ChannelEntry) :
    SlackBot → List (List Char × PyObj × ℚ) → List Nat × SlackBot
  | b, [] => ([], b)
  | b, c :: rest =>
    match sayFull channels b c.1 c.2.1 c.2.2 with
    | Except.error _ => runSayCallsSt channels b rest
    | Except.ok r =>
      (r.1 :: (runSayCallsSt channels r.2.2 rest).1, (runSayCallsSt channels r.2.2 rest).2)

/-- The state mutation performed by a successful `start` handshake
(lines 54-63): only `bot_user_id` is assigned; in particular
`max_message_id` is untouched across a reconnect. -/
def startHandshake (b : SlackBot) (uid : List Char) : SlackBot :=
  { b with bot_user_id := some uid }

theorem sayFull_ok_max {channels : List ChannelEntry} {b : SlackBot} {channel_id : List Char}
    {sendable_text : PyObj} {now : ℚ} {r : Nat × ℚ × SlackBot}
    (h : sayFull channels b channel_id sendable_text now = Except.ok r) :
    r.1 = b.max_message_id ∧ r.2.2.max_message_id = b.max_message_id + 1 := by
  unfold sayFull at h
  cases hc : get_channel_name_by_id channels channel_id with
  | none => rw [hc] at h; exact absurd h (by simp)
  | some n =>
    rw [hc] at h
    cases sendable_text with
    | nonStr => exact absurd h (by simp)
    | str s =>
      simp only [Except.ok.injEq] at h
      subst h
      exact ⟨rfl, rfl⟩

theorem runSayCallsSt_ids (channels : List ChannelEntry) :
    ∀ (calls : List (List Char × PyObj × ℚ)) (b : SlackBot),
      (runSayCallsSt channels b calls).1 =
        List.range' b.max_message_id (runSayCallsSt channels b calls).1.length ∧
      (runSayCallsSt channels b calls).2.max_message_id =
        b.max_message_id + (runSayCallsSt channels b calls).1.length := by
  intro calls
  induction calls with
  | nil => intro b; simp [runSayCallsSt]
  | cons c rest ih =>
    intro b
    cases h : sayFull channels b c.1 c.2.1 c.2.2 with
    | error e => simpa [runSayCallsSt, h] using ih b
    | ok r =>
      obtain ⟨h1, h2⟩ := sayFull_ok_max h
      obtain ⟨ih1, ih2⟩ := ih r.2.2
      constructor
      · simp only [runSayCallsSt, h, List.length_cons]
        rw [List.range'_succ, h1]
        congr 1
        conv_lhs => rw [ih1, h2]
      · simp only [runSayCallsSt, h, List.length_cons]
        rw [h2] at ih2
        omega

theorem chain_lt_range' : ∀ (n s : Nat), List.Chain' (fun a b => a < b) (List.range' s n) := by
  intro n
  induction n with
  | zero => intro s; simp
  | succ m ih =>
    intro s
    rw [List.range'_succ]
    rw [List.chain'_cons']
    refine ⟨?_, ih (s + 1)⟩
    intro y hy
    cases m with
    | zero => simp at hy
    | succ k =>
      rw [List.range'_succ] at hy
      simp only [List.head?_cons, Option.mem_def, Option.some.injEq] at hy
      omega

/-- Claim C2: message ids returned by successive accepted `say` calls on a
bot instance form the sequence `1, 2, 3, …`: starting from the initial
state (`max_message_id = 1`), the issued ids are exactly
`range' 1 n`, strictly increasing, pairwise distinct, and positive. -/
theorem c2_message_ids_sequential (channels : List ChannelEntry)
    (calls : List (List Char × PyObj × ℚ)) :
    (runSayCallsSt channels initBot calls).1 =
      List.range' 1 (runSayCallsSt channels initBot calls).1.length ∧
    List.Chain' (fun a b => a < b) (runSayCallsSt channels initBot calls).1 ∧
    (runSayCallsSt channels initBot calls).1.Nodup ∧
    ∀ i ∈ (runSayCallsSt channels initBot calls).1, 0 < i := by
  have h := (runSayCallsSt_ids channels calls initBot).1
  have hinit : initBot.max_message_id = 1 := rfl
  rw [hinit] at h
  refine ⟨h, ?_, ?_, ?_⟩
  · rw [h]; exact chain_lt_range' _ 1
  · rw [h]; exact List.nodup_range' _ _
  · intro i hi
    rw [h] at hi
    have := List.mem_range'_1.mp hi
    omega

/-- Claim C10 (implicit): the message-id counter belongs to the bot
instance, not to a single connection.  A reconnect (`start` re-run by
`start_loop`) only reassigns `bot_user_id`, so ids issued after the
reconnect continue the strictly increasing sequence begun before it:
the combined id list over both connection epochs is `range' 1 (m + n)`. -/
theorem c10_ids_survive_reconnect (channels : List ChannelEntry)
    (calls1 calls2 : List (List Char × PyObj × ℚ)) (uid : List Char) :
    (runSayCallsSt channels initBot calls1).1 ++
      (runSayCallsSt channels
        (startHandshake (runSayCallsSt channels initBot calls1).2 uid) calls2).1 =
    List.range' 1 ((runSayCallsSt channels initBot calls1).1.length +
      (runSayCallsSt channels
        (startHandshake (runSayCallsSt channels initBot calls1).2 uid) calls2).1.length) := by
  obtain ⟨h1, h2⟩ := runSayCallsSt_ids channels calls1 initBot
  have hinit : initBot.max_message_id = 1 := rfl
  rw [hinit] at h1 h2
  set b1 := (runSayCallsSt channels initBot calls1).2 with hb1
  have hpres : (startHandshake b1 uid).max_message_id = b1.max_message_id := rfl
  obtain ⟨h3, _⟩ := runSayCallsSt_ids channels calls2 (startHandshake b1 uid)
  rw [hpres, h2] at h3
  rw [h1, h3]
  have := List.range'_append 1 (runSayCallsSt channels initBot calls1).1.length
    (runSayCallsSt channels (startHandshake b1 uid) calls2).1.length 1
  simpa [Nat.add_comm] using this

theorem sayRateStep_snd_eq_fst (l c : ℚ) : (sayRateStep l c).2 = (sayRateStep l c).1 := by
  unfold sayRateStep
  split
  · rename_i h
    have hx : (0:ℚ) ≤ 1 - (c - l) := by linarith
    simp only
    rw [max_eq_right hx]
    ring
  · rfl

theorem sayRateStep_gap (l c : ℚ) : l + 1 ≤ (sayRateStep l c).1 := by
  unfold sayRateStep
  split
  · rename_i h
    have hx : (0:ℚ) ≤ 1 - (c - l) := by linarith
    simp only
    rw [max_eq_right hx]
    linarith
  · rename_i h
    simp only
    linarith [not_lt.mp h]

/-- Claim C3: back-to-back `say` calls are spaced at least 1 second apart
at the transport: the hand-off times produced by the rate-limiting block
always satisfy `sendTime (k) + 1 ≤ sendTime (k+1)`, whatever clock samples
the calls observe; moreover each accepted send updates `last_say_time`
exactly once, to the hand-off time itself. -/
theorem c3_rate_limit_gap (last : ℚ) (ts : List ℚ) :
    List.Chain' (fun a b => a + 1 ≤ b) (runSendTimes last ts) ∧
    ∀ l c, (sayRateStep l c).2 = (sayRateStep l c).1 := by
  refine ⟨?_, fun l c => sayRateStep_snd_eq_fst l c⟩
  induction ts generalizing last with
  | nil => simp [runSendTimes]
  | cons t ts ih =>
    cases ts with
    | nil => simp [runSendTimes]
    | cons u us =>
      rw [runSendTimes, List.chain'_cons']
      constructor
      · intro y hy
        rw [runSendTimes] at hy
        simp only [List.head?_cons, Option.mem_def, Option.some.injEq] at hy
        subst hy
        rw [sayRateStep_snd_eq_fst]
        exact sayRateStep_gap _ u
      · exact ih _

/-- Claim C9 (amended): `say` fails with the invalid-channel assert, before
any send or state change, whenever the channel id does not resolve; it
fails with the type assert whenever the text is not a string; and every
call with a resolvable channel and a string text — including the empty
string, which the `isinstance` check accepts — proceeds to send. -/
theorem c9_say_preconditions (channels : List ChannelEntry) (b : SlackBot)
    (channel_id : List Char) (txt : PyObj) (now : ℚ) :
    (get_channel_name_by_id channels channel_id = none →
      sayFull channels b channel_id txt now = Except.error SayErr.invalidChannel) ∧
    ((get_channel_name_by_id channels channel_id).isSome = true → txt = PyObj.nonStr →
      sayFull channels b channel_id txt now = Except.error SayErr.invalidText) ∧
    (∀ t, (get_channel_name_by_id channels channel_id).isSome = true → txt = PyObj.str t →
      sayFull channels b channel_id txt now =
        Except.ok (b.max_message_id, (sayRateStep b.last_say_time now).1,
          { b with
              max_message_id := b.max_message_id + 1,
              last_say_time := (sayRateStep b.last_say_time now).2 })) := by
  refine ⟨?_, ?_, ?_⟩
  · intro h
    unfold sayFull
    rw [h]
  · intro hs ht
    subst ht
    unfold sayFull
    cases hc : get_channel_name_by_id channels channel_id with
    | none => rw [hc] at hs; simp at hs
    | some n => rfl
  · intro t hs ht
    subst ht
    unfold sayFull
    cases hc : get_channel_name_by_id channels channel_id with
    | none => rw [hc] at hs; simp at hs
    | some n => rfl

/-- The channel directory used by concrete witnesses: one channel `C1`
named `general`. -/
def exChannels : List ChannelEntry :=
  [{ id := "C1".toList, name := "general".toList }]

theorem c9_say_preconditions_witness :
    sayFull exChannels initBot ("CX".toList) (PyObj.str ("hi".toList)) 0 =
      Except.error SayErr.invalidChannel ∧
    sayFull exChannels initBot ("C1".toList) PyObj.nonStr 0 =
      Except.error SayErr.invalidText ∧
    sayFull exChannels initBot ("C1".toList) (PyObj.str ("hi".toList)) 0 =
      Except.ok (initBot.max_message_id, (sayRateStep initBot.last_say_time 0).1,
        { initBot with
            max_message_id := initBot.max_message_id + 1,
            last_say_time := (sayRateStep initBot.last_say_time 0).2 }) :=
  ⟨(c9_say_preconditions exChannels initBot ("CX".toList) (PyObj.str ("hi".toList)) 0).1
      (by decide),
   (c9_say_preconditions exChannels initBot ("C1".toList) PyObj.nonStr 0).2.1
      (by decide) rfl,
   (c9_say_preconditions exChannels initBot ("C1".toList) (PyObj.str ("hi".toList)) 0).2.2
      ("hi".toList) (by decide) rfl⟩

/-- Claim C9, counterexample: the claim also requires calls whose text is
not a *non-empty* string to fail, but the code only checks
`isinstance(sendable_text, str)`: a call with the empty string on a valid
channel is accepted and proceeds to send. -/
theorem c9_empty_text_accepted :
    (sayFull exChannels initBot ("C1".toList) (PyObj.str []) 0).isOk = true := by
  decide

/-- Python `str.startswith` / prefix test on character lists. -/
def isPre : List Char → List Char → Bool
  | [], _ => true
  | _ :: _, [] => false
  | a :: as, b :: bs => a == b && isPre as bs

/-- Python `str.replace` with the non-empty pattern `p :: ps` and
replacement `rep`: a left-to-right scan replacing non-overlapping
occurrences, as used by `text_to_sendable_text` and the entity-unescaping
line of `sendable_text_to_text`. -/
def replaceStr (p : Char) (ps rep : List Char) : List Char → List Char
  | [] => []
  | c :: cs =>
    if isPre (p :: ps) (c :: cs) then rep ++ replaceStr p ps rep (cs.drop ps.length)
    else c :: replaceStr p ps rep cs
termination_by s => s.length
decreasing_by
  · simp only [List.length_cons]
    have := List.length_drop ps.length cs
    omega
  · simp only [List.length_cons]
    omega

/-- Helper for the regex `<[^<>]*>`: given the characters after a `<`,
splits off a bracket-free body terminated by `>`; `none` when another `<`
or the end of the string comes first, in which case the regex does not
match at this position. -/
def splitSpecialStrip : List Char → Option (List Char × List Char)
  | [] => none
  | c :: cs =>
    if c = '>' then some ([], cs)
    else if c = '<' then none
    else
      match splitSpecialStrip cs with
      | none => none
      | some br => some (c :: br.1, br.2)

theorem splitSpecialStrip_length :
    ∀ {cs : List Char} {br : List Char × List Char},
      splitSpecialStrip cs = some br → br.2.length < cs.length := by
  intro cs
  induction cs with
  | nil => intro br h; simp [splitSpecialStrip] at h
  | cons c cs ih =>
    intro br h
    simp only [splitSpecialStrip] at h
    split at h
    · simp only [Option.some.injEq] at h
      subst h
      simp
    · split at h
      · exact absurd h (by simp)
      · cases hm : splitSpecialStrip cs with
        | none => rw [hm] at h; exact absurd h (by simp)
        | some br' =>
          rw [hm] at h
          simp only [Option.some.injEq] at h
          subst h
          have := ih hm
          simp only [List.length_cons]
          omega

/-- `re.sub(r"<[^<>]*>", "", s)` (lines 214 and 234): remove every
bracket-free `<...>` sequence, scanning left to right; unmatched `<`
characters are kept and scanning resumes one character later. -/
def stripSpecial : List Char → List Char
  | [] => []
  | c :: cs =>
    if c = '<' then
      match h : splitSpecialStrip cs with
      | some br => stripSpecial br.2
      | none => c :: stripSpecial cs
    else c :: stripSpecial cs
termination_by s => s.length
decreasing_by
  all_goals first
    | (have hlen := splitSpecialStrip_length h
       simp only [List.length_cons]
       omega)
    | (simp only [List.length_cons]
       omega)

/-- Helper for the lazy regex `<(.*?)>`: given the characters after a `<`,
splits off the shortest body terminated by `>`; since `.` does not match a
newline, a newline before the next `>` (or the string ending) means no
match at this position. -/
def splitAtClose : List Char → Option (List Char × List Char)
  | [] => none
  | c :: cs =>
    if c = '>' then some ([], cs)
    else if c = '\n' then none
    else
      match splitAtClose cs with
      | none => none
      | some br => some (c :: br.1, br.2)

theorem splitAtClose_length :
    ∀ {cs : List Char} {br : List Char × List Char},
      splitAtClose cs = some br → br.2.length < cs.length := by
  intro cs
  induction cs with
  | nil => intro br h; simp [splitAtClose] at h
  | cons c cs ih =>
    intro br h
    simp only [splitAtClose] at h
    split at h
    · simp only [Option.some.injEq] at h
      subst h
      simp
    · split at h
      · exact absurd h (by simp)
      · cases hm : splitAtClose cs with
        | none => rw [hm] at h; exact absurd h (by simp)
        | some br' =>
          rw [hm] at h
          simp only [Option.some.injEq] at h
          subst h
          have := ih hm
          simp only [List.length_cons]
          omega

/-- `re.sub(r"<(.*?)>", f, s)`: replace each leftmost lazy `<body>` match
by `f body`, resuming after the match; the replacement is not rescanned. -/
def subSpecial (f : List Char → List Char) : List Char → List Char
  | [] => []
  | c :: cs =>
    if c = '<' then
      match h : splitAtClose cs with
      | some br => f br.1 ++ subSpecial f br.2
      | none => c :: subSpecial f cs
    else c :: subSpecial f cs
termination_by s => s.length
decreasing_by
  all_goals first
    | (have hlen := splitAtClose_length h
       simp only [List.length_cons]
       omega)
    | (simp only [List.length_cons]
       omega)

/-- The `process_special_sequence` closure of `sendable_text_to_text`
(lines 238-252), applied to the regex group: channel references resolve to
`#name` (dropped when unresolvable), user references to `@name`, the three
broadcast keywords expand, and anything else is sent back unchanged as
`"<" + body + ">"`. -/
def process_special_sequence (channels : List ChannelEntry) (users : List UserEntry)
    (body : List Char) : List Char :=
  if isPre ("#C".toList) (body.takeWhile (fun c => c != '|')) then
    match get_channel_name_by_id channels ((body.takeWhile (fun c => c != '|')).drop 1) with
    | none => []
    | some n => '#' :: n
  else if isPre ("@U".toList) (body.takeWhile (fun c => c != '|')) then
    match get_user_name_by_id users ((body.takeWhile (fun c => c != '|')).drop 1) with
    | none => []
    | some n => '@' :: n
  else if body.takeWhile (fun c => c != '|') = "!channel".toList then "@channel".toList
  else if body.takeWhile (fun c => c != '|') = "!group".toList then "@group".toList
  else if body.takeWhile (fun c => c != '|') = "!everyone".toList then "@everyone".toList
  else '<' :: (body ++ [ '>' ])

/-- `SlackBot.text_to_sendable_text` (lines 226-229): escape `&`, then
`<`, then `>` to their entity forms. -/
def text_to_sendable_text (text : List Char) : List Char :=
  replaceStr '>' [] ("&gt;".toList)
    (replaceStr '<' [] ("&lt;".toList)
      (replaceStr '&' [] ("&amp;".toList) text))

/-- The entity-unescaping line of `sendable_text_to_text` (line 255):
`&lt;` → `<`, then `&gt;` → `>`, then `&amp;` → `&`. -/
def unescapeEntities (s : List Char) : List Char :=
  replaceStr '&' ("amp;".toList) ("&".toList)
    (replaceStr '&' ("gt;".toList) (">".toList)
      (replaceStr '&' ("lt;".toList) ("<".toList) s))

/-- `SlackBot.sendable_text_to_text` (lines 231-255): the stray-bracket
assert over the stripped text (the FormatError), then reference
processing, then entity unescaping. -/
def sendable_text_to_text (channels : List ChannelEntry) (users : List UserEntry)
    (sendable_text : List Char) : Except Unit (List Char) :=
  if '<' ∈ stripSpecial sendable_text ∨ '>' ∈ stripSpecial sendable_text then
    Except.error ()
  else
    Except.ok (unescapeEntities
      (subSpecial (process_special_sequence channels users) sendable_text))

theorem isPre_head_ne {p c : Char} (ps cs : List Char) (h : p ≠ c) :
    isPre (p :: ps) (c :: cs) = false := by
  simp [isPre, h]

theorem replaceStr_of_not_mem {p : Char} (ps rep : List Char) :
    ∀ (s : List Char), p ∉ s → replaceStr p ps rep s = s := by
  intro s
  induction s with
  | nil => intro h; simp [replaceStr]
  | cons c cs ih =>
    intro h
    rw [List.mem_cons] at h
    push_neg at h
    obtain ⟨h1, h2⟩ := h
    rw [replaceStr, isPre_head_ne ps cs h1]
    simp only [Bool.false_eq_true, if_false]
    rw [ih h2]

theorem stripSpecial_of_not_mem :
    ∀ (s : List Char), '<' ∉ s → stripSpecial s = s := by
  intro s
  induction s with
  | nil => intro h; simp [stripSpecial]
  | cons c cs ih =>
    intro h
    rw [List.mem_cons] at h
    push_neg at h
    obtain ⟨h1, h2⟩ := h
    rw [stripSpecial, if_neg (fun e => h1 e.symm)]
    rw [ih h2]

theorem subSpecial_of_not_mem (f : List Char → List Char) :
    ∀ (s : List Char), '<' ∉ s → subSpecial f s = s := by
  intro s
  induction s with
  | nil => intro h; simp [subSpecial]
  | cons c cs ih =>
    intro h
    rw [List.mem_cons] at h
    push_neg at h
    obtain ⟨h1, h2⟩ := h
    rw [subSpecial, if_neg (fun e => h1 e.symm)]
    rw [ih h2]

/-- Claim C4: Wire Text Codec round-trip.  For every plain-text string
containing none of `&`, `<`, `>`, converting to the sendable wire format
and back is the identity, and neither direction fails. -/
theorem c4_codec_roundtrip (channels : List ChannelEntry) (users : List UserEntry)
    (text : List Char) (h : ∀ c ∈ text, c ≠ '&' ∧ c ≠ '<' ∧ c ≠ '>') :
    sendable_text_to_text channels users (text_to_sendable_text text) =
      Except.ok text := by
  have hamp : '&' ∉ text := fun m => ((h _ m).1) rfl
  have hlt : '<' ∉ text := fun m => ((h _ m).2.1) rfl
  have hgt : '>' ∉ text := fun m => ((h _ m).2.2) rfl
  have e1 : text_to_sendable_text text = text := by
    unfold text_to_sendable_text
    rw [replaceStr_of_not_mem _ _ _ hamp, replaceStr_of_not_mem _ _ _ hlt,
        replaceStr_of_not_mem _ _ _ hgt]
  rw [e1]
  unfold sendable_text_to_text
  rw [stripSpecial_of_not_mem _ hlt]
  rw [if_neg (not_or.mpr ⟨hlt, hgt⟩)]
  rw [subSpecial_of_not_mem _ _ hlt]
  unfold unescapeEntities
  rw [replaceStr_of_not_mem _ _ _ hamp, replaceStr_of_not_mem _ _ _ hamp,
      replaceStr_of_not_mem _ _ _ hamp]

theorem c4_codec_roundtrip_witness :
    (∀ c ∈ "hello world!".toList, c ≠ '&' ∧ c ≠ '<' ∧ c ≠ '>') ∧
    sendable_text_to_text exChannels [] (text_to_sendable_text ("hello world!".toList)) =
      Except.ok ("hello world!".toList) :=
  ⟨by decide, c4_codec_roundtrip exChannels [] ("hello world!".toList) (by decide)⟩

/-- Claim C8: `sendable_text_to_text` fails with the FormatError exactly
when an unescaped `<` or `>` remains after stripping the recognized
bracket-free `<...>` sequences; inputs with no such stray bracket never
fail. -/
theorem c8_format_error_iff (channels : List ChannelEntry) (users : List UserEntry)
    (s : List Char) :
    (∃ e, sendable_text_to_text channels users s = Except.error e) ↔
      ('<' ∈ stripSpecial s ∨ '>' ∈ stripSpecial s) := by
  unfold sendable_text_to_text
  by_cases h : '<' ∈ stripSpecial s ∨ '>' ∈ stripSpecial s
  · simp [h]
  · simp [h]

/-- A regex `\w` word character (ASCII model). -/
def isWordChar (c : Char) : Bool := c.isAlphanum || c == '_'

/-- A Python `str.strip()` whitespace character (ASCII model). -/
def isPySpace (c : Char) : Bool :=
  c == ' ' || c == '\t' || c == '\n' || c == '\r' || c == '\x0B' || c == '\x0C'

/-- Python `str.strip()`: drop whitespace from both ends. -/
def stripStr (s : List Char) : List Char :=
  ((s.dropWhile isPySpace).reverse.dropWhile isPySpace).reverse

/-- Python `str.lstrip(ch)` for a one-character strip set. -/
def lstripChar (ch : Char) (s : List Char) : List Char :=
  s.dropWhile (fun c => c == ch)

/-- The part of the reference regexes after `(\w+)`: either `>` at the end
of the string, or `|`, a non-empty run of non-`>` characters, and a final
`>` at the end (the `(?:\|[^>]+)?>$` tail, greedy with no usable
backtracking since the classes exclude the delimiters). -/
def parseTail (id rest2 : List Char) : Option (List Char) :=
  match rest2 with
  | [] => none
  | c :: rest3 =>
    if c = '>' then (if rest3 = [] then some id else none)
    else if c = '|' then
      if (rest3.takeWhile (fun x => x != '>')).isEmpty then none
      else
        match rest3.dropWhile (fun x => x != '>') with
        | [] => none
        | c2 :: rest4 => if c2 = '>' ∧ rest4 = [] then some id else none
    else none

/-- `re.match` of `<TAG(\w+)(?:\|[^>]+)?>$` (anchored at the start, `$` at
the end): `<`, the tag character, a non-empty greedy run of word
characters as the captured id, and then `parseTail`. -/
def parseRef (tag : Char) (s : List Char) : Option (List Char) :=
  match s with
  | lt :: t2 :: rest =>
    if lt = '<' ∧ t2 = tag then
      if (rest.takeWhile isWordChar).isEmpty then none
      else parseTail (rest.takeWhile isWordChar) (rest.dropWhile isWordChar)
    else none
  | _ => none

/-- `SlackBot.get_channel_id_by_name` (lines 161-175): strip, `lstrip("#")`,
the inline channel-reference regex, then a name search of the directory. -/
def get_channel_id_by_name (channels : List ChannelEntry) (channel_name : List Char) :
    Option (List Char) :=
  match parseRef '#' (lstripChar '#' (stripStr channel_name)) with
  | some i => some i
  | none =>
    (channels.find? (fun e => e.name == lstripChar '#' (stripStr channel_name))).map
      (fun e => e.id)

/-- `SlackBot.get_user_id_by_name` (lines 184-202): strip, `lstrip("@")`,
the inline user-reference regex, then a search by `name` and finally by
`real_name`. -/
def get_user_id_by_name (users : List UserEntry) (user_name : List Char) :
    Option (List Char) :=
  match parseRef '@' (lstripChar '@' (stripStr user_name)) with
  | some i => some i
  | none =>
    match users.find? (fun e => e.name == lstripChar '@' (stripStr user_name)) with
    | some e => some e.id
    | none =>
      (users.find? (fun e => e.real_name == lstripChar '@' (stripStr user_name))).map
        (fun e => e.id)

theorem takeWhile_append_stop {p : Char → Bool} :
    ∀ (a : List Char) (b : Char) (t : List Char),
      (∀ c ∈ a, p c = true) → p b = false → (a ++ b :: t).takeWhile p = a := by
  intro a
  induction a with
  | nil =>
    intro b t _ hb
    simp [List.takeWhile_cons, hb]
  | cons x xs ih =>
    intro b t ha hb
    have hx : p x = true := ha x (List.mem_cons_self x xs)
    simp only [List.cons_append, List.takeWhile_cons, hx, if_true]
    rw [ih b t (fun c hc => ha c (List.mem_cons_of_mem x hc)) hb]

theorem dropWhile_append_stop {p : Char → Bool} :
    ∀ (a : List Char) (b : Char) (t : List Char),
      (∀ c ∈ a, p c = true) → p b = false → (a ++ b :: t).dropWhile p = b :: t := by
  intro a
  induction a with
  | nil =>
    intro b t _ hb
    simp [List.dropWhile_cons, hb]
  | cons x xs ih =>
    intro b t ha hb
    have hx : p x = true := ha x (List.mem_cons_self x xs)
    simp only [List.cons_append, List.dropWhile_cons, hx, if_true]
    exact ih b t (fun c hc => ha c (List.mem_cons_of_mem x hc)) hb

theorem stripStr_no_space (a b : Char) (mid : List Char)
    (ha : isPySpace a = false) (hb : isPySpace b = false) :
    stripStr (a :: (mid ++ [b])) = a :: (mid ++ [b]) := by
  unfold stripStr
  have h1 : (a :: (mid ++ [b])).dropWhile isPySpace = a :: (mid ++ [b]) := by
    rw [List.dropWhile_cons, ha]
    simp
  rw [h1]
  have h2 : (a :: (mid ++ [b])).reverse = b :: (mid.reverse ++ [a]) := by
    simp
  rw [h2]
  have h3 : (b :: (mid.reverse ++ [a])).dropWhile isPySpace = b :: (mid.reverse ++ [a]) := by
    rw [List.dropWhile_cons, hb]
    simp
  rw [h3, ← h2, List.reverse_reverse]

theorem lstripChar_no_head {ch a : Char} (s : List Char) (h : (a == ch) = false) :
    lstripChar ch (a :: s) = a :: s := by
  unfold lstripChar
  rw [List.dropWhile_cons, h]
  simp

theorem parseRef_plain (tag : Char) (ID : List Char) (hne : ID ≠ [])
    (hw : ∀ c ∈ ID, isWordChar c = true) :
    parseRef tag ('<' :: tag :: (ID ++ [ '>' ])) = some ID := by
  simp only [parseRef]
  rw [if_pos ⟨trivial, trivial⟩]
  rw [takeWhile_append_stop ID '>' [] hw (by decide),
      dropWhile_append_stop ID '>' [] hw (by decide)]
  rw [if_neg (fun he => hne (List.isEmpty_iff.mp he))]
  simp [parseTail]

theorem parseRef_labelled (tag : Char) (ID label : List Char) (hne : ID ≠ [])
    (hw : ∀ c ∈ ID, isWordChar c = true) (hlne : label ≠ [])
    (hl : ∀ c ∈ label, (c != '>') = true) :
    parseRef tag ('<' :: tag :: (ID ++ '|' :: (label ++ [ '>' ]))) = some ID := by
  simp only [parseRef]
  rw [if_pos ⟨trivial, trivial⟩]
  rw [takeWhile_append_stop ID '|' (label ++ [ '>' ]) hw (by decide),
      dropWhile_append_stop ID '|' (label ++ [ '>' ]) hw (by decide)]
  rw [if_neg (fun he => hne (List.isEmpty_iff.mp he))]
  simp only [parseTail,
    takeWhile_append_stop label '>' [] hl (by decide),
    dropWhile_append_stop label '>' [] hl (by decide)]
  rw [if_neg (fun he => hlne (List.isEmpty_iff.mp he))]
  simp

/-- Claim C7: inline reference resolution bypasses directory search.  For
any id made of word characters, `get_channel_id_by_name` on `<#ID>` or
`<#ID|label>` and `get_user_id_by_name` on `<@ID>` or `<@ID|label>` return
the embedded id, for every directory (so no directory entry is consulted). -/
theorem c7_inline_refs (channels : List ChannelEntry) (users : List UserEntry)
    (ID label : List Char) (hne : ID ≠ [])
    (hw : ∀ c ∈ ID, isWordChar c = true) (hlne : label ≠ [])
    (hl : ∀ c ∈ label, (c != '>') = true) :
    get_channel_id_by_name channels ('<' :: '#' :: (ID ++ [ '>' ])) = some ID ∧
    get_channel_id_by_name channels ('<' :: '#' :: (ID ++ '|' :: (label ++ [ '>' ]))) = some ID ∧
    get_user_id_by_name users ('<' :: '@' :: (ID ++ [ '>' ])) = some ID ∧
    get_user_id_by_name users ('<' :: '@' :: (ID ++ '|' :: (label ++ [ '>' ]))) = some ID := by
  have hs1 : ∀ t2 : Char, stripStr ('<' :: t2 :: (ID ++ [ '>' ])) = '<' :: t2 :: (ID ++ [ '>' ]) := by
    intro t2
    have := stripStr_no_space '<' '>' (t2 :: ID) (by decide) (by decide)
    simpa using this
  have hs2 : ∀ t2 : Char, stripStr ('<' :: t2 :: (ID ++ '|' :: (label ++ [ '>' ]))) =
      '<' :: t2 :: (ID ++ '|' :: (label ++ [ '>' ])) := by
    intro t2
    have := stripStr_no_space '<' '>' (t2 :: (ID ++ '|' :: label)) (by decide) (by decide)
    simpa using this
  refine ⟨?_, ?_, ?_, ?_⟩
  · unfold get_channel_id_by_name
    rw [hs1, lstripChar_no_head _ (by decide), parseRef_plain '#' ID hne hw]
  · unfold get_channel_id_by_name
    rw [hs2, lstripChar_no_head _ (by decide), parseRef_labelled '#' ID label hne hw hlne hl]
  · unfold get_user_id_by_name
    rw [hs1, lstripChar_no_head _ (by decide), parseRef_plain '@' ID hne hw]
  · unfold get_user_id_by_name
    rw [hs2, lstripChar_no_head _ (by decide), parseRef_labelled '@' ID label hne hw hlne hl]

theorem c7_inline_refs_witness :
    get_channel_id_by_name [] ('<' :: '#' :: ("C123".toList ++ [ '>' ])) =
      some ("C123".toList) ∧
    get_user_id_by_name [] ('<' :: '@' :: ("U9".toList ++ '|' :: ("alice".toList ++ [ '>' ]))) =
      some ("U9".toList) :=
  ⟨(c7_inline_refs [] [] ("C123".toList) ("alice".toList) (by decide) (by decide)
      (by decide) (by decide)).1,
   (c7_inline_refs [] [] ("U9".toList) ("alice".toList) (by decide) (by decide)
      (by decide) (by decide)).2.2.2⟩

/-- The acknowledgement test of the `say_complete` polling loop
(line 124): the event carries an `"ok"` key and its `reply_to` equals the
id of this send. -/
def isAckFor (mid : Nat) (e : Event) : Bool :=
  e.ok.isSome && e.replyTo == some mid

/-- The possible outcomes of the `say_complete` wait after `say` returns:
a server timestamp, the `TimeoutError`, the `ValueError` on a rejected
send (carrying `message.get("error", {}).get("msg")`), or the assertion
failure on a missing or non-string `ts`. -/
inductive SayCompleteResult
  | timestamp (ts : List Char)
  | timeoutErr
  | sendRejected (msg : Option (List Char))
  | invalidTimestamp
deriving DecidableEq

/-- What lines 125-127 do with the first matching acknowledgement. -/
def ackOutcome (e : Event) : SayCompleteResult :=
  match e.ok with
  | some true =>
    match e.ts with
    | some t => SayCompleteResult.timestamp t
    | none => SayCompleteResult.invalidTimestamp
  | _ => SayCompleteResult.sendRejected e.errMsg

/-- The polling loop of `say_complete` (lines 119-131).  Each round, while
time remains (`fuel` rounds correspond to the `timeout` budget), performs
one `peek_new_messages`: the fresh transport batch is appended to the
unprocessed buffer, and only that fresh batch is scanned for the first
acknowledgement matching the message id; exhausted fuel is the
`TimeoutError`.  Returns the outcome together with the final buffer. -/
def say_complete_poll :
    List Event → Nat → Nat → List (List Event) → SayCompleteResult × List Event
  | buf, _, 0, _ => (SayCompleteResult.timeoutErr, buf)
  | buf, mid, fuel + 1, batches =>
    match (batches.headD []).find? (isAckFor mid) with
    | some e => (ackOutcome e, buf ++ batches.headD [])
    | none => say_complete_poll (buf ++ batches.headD []) mid fuel batches.tail

/-- Claim C1 (amended): the `say_complete` wait observes only events
freshly read from the transport during polling.  Its outcome is decided by
the first matching acknowledgement among the fresh batches read within the
timeout window — the timestamp when `ok` is true and `ts` is a string,
the rejection error when `ok` is false, the timestamp assertion otherwise,
and Timeout when no fresh matching acknowledgement arrives in time.
Acknowledgements already sitting in the unprocessed buffer at poll start
are never consulted; every freshly read event is appended to the buffer
(peek semantics) and nothing is removed from it. -/
theorem c1_say_complete_fresh_only (fuel : Nat) (buf : List Event) (mid : Nat)
    (batches : List (List Event)) :
    (say_complete_poll buf mid fuel batches).1 =
      (match ((batches.take fuel).flatten).find? (isAckFor mid) with
       | some e => ackOutcome e
       | none => SayCompleteResult.timeoutErr) ∧
    ∃ read, (say_complete_poll buf mid fuel batches).2 = buf ++ read := by
  induction fuel generalizing buf batches with
  | zero =>
    refine ⟨by simp [say_complete_poll], ⟨[], by simp [say_complete_poll]⟩⟩
  | succ n ih =>
    cases batches with
    | nil =>
      obtain ⟨ih1, ih2⟩ := ih (buf ++ []) []
      constructor
      · simp only [say_complete_poll, List.headD_nil, List.find?_nil, List.tail_nil]
        rw [ih1]
        simp
      · obtain ⟨read, hr⟩ := ih2
        refine ⟨read, ?_⟩
        simp only [say_complete_poll, List.headD_nil, List.find?_nil, List.tail_nil]
        simpa using hr
    | cons b bs =>
      obtain ⟨ih1, ih2⟩ := ih (buf ++ b) bs
      cases hf : b.find? (isAckFor mid) with
      | some e =>
        constructor
        · simp [say_complete_poll, hf, List.take_succ_cons, List.flatten_cons,
            List.find?_append]
        · refine ⟨b, ?_⟩
          simp [say_complete_poll, hf]
      | none =>
        constructor
        · simp only [say_complete_poll, List.headD_cons, List.tail_cons, hf]
          rw [ih1]
          simp only [List.take_succ_cons, List.flatten_cons, List.find?_append, hf,
            Option.none_or]
        · obtain ⟨read, hr⟩ := ih2
          refine ⟨b ++ read, ?_⟩
          simp only [say_complete_poll, List.headD_cons, List.tail_cons, hf]
          rw [hr, List.append_assoc]

/-- Claim C1, counterexample to the claim as stated: an acknowledgement
with matching `reply_to` and `ok` true that is already sitting in the
unprocessed buffer when the wait begins is not observed — with no fresh
transport events the call times out (and the buffered acknowledgement is
still there), instead of returning its timestamp. -/
theorem c1_buffered_ack_missed :
    isAckFor 7
      { ok := some true, replyTo := some 7, ts := some ("1.0".toList), errMsg := none } = true ∧
    say_complete_poll
      [{ ok := some true, replyTo := some 7, ts := some ("1.0".toList), errMsg := none }]
      7 5 [] =
      (SayCompleteResult.timeoutErr,
        [{ ok := some true, replyTo := some 7, ts := some ("1.0".toList), errMsg := none }]) := by
  decide

/-- `SlackBot.get_unprocessed_messages` (lines 40-43) as a function of the
buffer and the fresh `rtm_read()` batch: returns `buffer + fresh` and
clears the buffer (the drain operation). -/
def get_unprocessed_messages (buf fresh : List Event) : List Event × List Event :=
  (buf ++ fresh, [])

/-- `SlackBot.peek_unprocessed_messages` (lines 45-47): appends the fresh
batch to the buffer and returns the whole buffer; nothing is removed. -/
def peek_unprocessed_messages (buf fresh : List Event) : List Event × List Event :=
  (buf ++ fresh, buf ++ fresh)

/-- `SlackBot.peek_new_messages` (lines 49-52): appends the fresh batch to
the buffer and returns only the fresh batch; nothing is removed. -/
def peek_new_messages (buf fresh : List Event) : List Event × List Event :=
  (fresh, buf ++ fresh)

/-- The three buffer operations. -/
inductive BufOp
  | drain
  | peekAll
  | peekNew
deriving DecidableEq

def applyOp : BufOp → List Event → List Event → List Event × List Event
  | BufOp.drain => get_unprocessed_messages
  | BufOp.peekAll => peek_unprocessed_messages
  | BufOp.peekNew => peek_new_messages

/-- Run a sequence of buffer operations, each paired with the transport
batch its `rtm_read()` call returns, producing the per-operation results
and the final buffer. -/
def runBuf : List Event → List (BufOp × List Event) → List (List Event) × List Event
  | buf, [] => ([], buf)
  | buf, op :: rest =>
    ((applyOp op.1 buf op.2).1 :: (runBuf (applyOp op.1 buf op.2).2 rest).1,
     (runBuf (applyOp op.1 buf op.2).2 rest).2)

theorem applyOp_buffer_cases (op : BufOp) (b fr : List Event) :
    (applyOp op b fr).2 = [] ∨ (applyOp op b fr).2 = b ++ fr := by
  cases op with
  | drain => exact Or.inl rfl
  | peekAll => exact Or.inr rfl
  | peekNew => exact Or.inr rfl

theorem runBuf_peeks_preserve :
    ∀ (mids : List (BufOp × List Event)) (b : List Event),
      (∀ q ∈ mids, q.1 ≠ BufOp.drain) →
      (runBuf b mids).2 = b ++ (mids.map Prod.snd).flatten := by
  intro mids
  induction mids with
  | nil => intro b _; simp [runBuf]
  | cons q rest ih =>
    intro b hq
    have hne : q.1 ≠ BufOp.drain := hq q (List.mem_cons_self q rest)
    have happ : (applyOp q.1 b q.2).2 = b ++ q.2 := by
      rcases q with ⟨op, fr⟩
      cases op with
      | drain => exact absurd rfl hne
      | peekAll => rfl
      | peekNew => rfl
    simp only [runBuf, happ]
    rw [ih (b ++ q.2) (fun r hr => hq r (List.mem_cons_of_mem q hr))]
    simp [List.append_assoc]

theorem runBuf_results_mem :
    ∀ (ops : List (BufOp × List Event)) (b : List Event) (r : List Event) (x : Event),
      r ∈ (runBuf b ops).1 → x ∈ r → x ∈ b ++ (ops.map Prod.snd).flatten := by
  intro ops
  induction ops with
  | nil => intro b r x hr _; simp [runBuf] at hr
  | cons q rest ih =>
    intro b r x hr hx
    simp only [runBuf, List.mem_cons] at hr
    rcases hr with hr | hr
    · subst hr
      have hxm : x ∈ b ++ q.2 := by
        rcases q with ⟨op, fr⟩
        cases op with
        | drain => simpa [applyOp, get_unprocessed_messages] using hx
        | peekAll => simpa [applyOp, peek_unprocessed_messages] using hx
        | peekNew =>
          simp only [applyOp, peek_new_messages] at hx
          exact List.mem_append_right b hx
      simp only [List.map_cons, List.flatten_cons, List.mem_append] at hxm ⊢
      tauto
    · have hmem := ih (applyOp q.1 b q.2).2 r x hr hx
      rcases applyOp_buffer_cases q.1 b q.2 with h0 | h0 <;> rw [h0] at hmem <;>
        (simp only [List.map_cons, List.flatten_cons, List.mem_append,
          List.nil_append] at hmem ⊢
         tauto)

theorem runBuf_sublist :
    ∀ (ops : List (BufOp × List Event)) (b : List Event),
      (runBuf b ops).2.Sublist (b ++ (ops.map Prod.snd).flatten) := by
  intro ops
  induction ops with
  | nil => intro b; simp [runBuf]
  | cons q rest ih =>
    intro b
    simp only [runBuf, List.map_cons, List.flatten_cons]
    rcases applyOp_buffer_cases q.1 b q.2 with h0 | h0 <;> rw [h0]
    · have h2 := List.sublist_append_right (b ++ q.2) ((rest.map Prod.snd).flatten)
      rw [List.append_assoc] at h2
      exact (ih []).trans h2
    · have := ih (b ++ q.2)
      simpa [List.append_assoc] using this

/-- Claim C5: peek vs. drain on the unprocessed event buffer.  Every event
returned by a peek stays in the buffer and reappears, contiguously and in
the same FIFO order, in the result of the next drain (with only peeks in
between); a drain empties the buffer, and an event it returned is never
delivered by any later operation as long as the transport does not hand it
out again; and the buffer is always a sublist of the initial buffer
followed by each transport batch taken once, so no event enters it twice. -/
theorem c5_peek_drain (buf f g : List Event) (e : Event) (p : BufOp)
    (mids later : List (BufOp × List Event)) :
    (p ≠ BufOp.drain → (∀ q ∈ mids, q.1 ≠ BufOp.drain) →
      ∃ u v, (get_unprocessed_messages (runBuf (applyOp p buf f).2 mids).2 g).1 =
        u ++ ((applyOp p buf f).1 ++ v)) ∧
    (get_unprocessed_messages buf f).2 = [] ∧
    (e ∈ (get_unprocessed_messages buf f).1 → e ∉ (later.map Prod.snd).flatten →
      ∀ r ∈ (runBuf (get_unprocessed_messages buf f).2 later).1, e ∉ r) ∧
    (runBuf buf later).2.Sublist (buf ++ (later.map Prod.snd).flatten) := by
  refine ⟨?_, rfl, ?_, runBuf_sublist later buf⟩
  · intro hp hmids
    rw [show (get_unprocessed_messages (runBuf (applyOp p buf f).2 mids).2 g).1 =
        (runBuf (applyOp p buf f).2 mids).2 ++ g from rfl]
    rw [runBuf_peeks_preserve mids (applyOp p buf f).2 hmids]
    cases p with
    | drain => exact absurd rfl hp
    | peekAll =>
      refine ⟨[], (mids.map Prod.snd).flatten ++ g, ?_⟩
      simp [applyOp, peek_unprocessed_messages, List.append_assoc]
    | peekNew =>
      refine ⟨buf, (mids.map Prod.snd).flatten ++ g, ?_⟩
      simp [applyOp, peek_new_messages, List.append_assoc]
  · intro he hlater r hr hx
    have hmem := runBuf_results_mem later (get_unprocessed_messages buf f).2 r e hr hx
    simp only [get_unprocessed_messages, List.nil_append] at hmem
    exact hlater hmem

/-- The behaviour of one hook invocation: returns normally, raises an
`Exception`, or raises `KeyboardInterrupt` (which in Python is not an
`Exception` subclass, so `except Exception` does not catch it). -/
inductive HookRes
  | ok
  | exc
  | interrupt
deriving DecidableEq

/-- A log record emitted by the dispatch loop: the step-hook failure log
(line 70) or the message-hook failure log carrying the offending event
(line 77). -/
inductive LogEntry
  | stepErr
  | msgErr (e : Event)
deriving DecidableEq

/-- Observable outcome of one tick of the `while True` body of `start`
(lines 66-85): which events were handed to the message hook, what was
logged, and whether a `KeyboardInterrupt` unwound out of the tick. -/
structure TickOut where
  delivered : List Event
  logged : List LogEntry
  interrupted : Bool
deriving DecidableEq

/-- The message loop of a tick (lines 73-77): each event is handed to
`on_message`; an `Exception` is caught and logged with the event attached
and the loop continues; a `KeyboardInterrupt` is re-raised, abandoning the
rest of the batch. -/
def processMessages : List (Event × HookRes) → TickOut
  | [] => { delivered := [], logged := [], interrupted := false }
  | m :: rest =>
    match m.2 with
    | HookRes.interrupt => { delivered := [m.1], logged := [], interrupted := true }
    | HookRes.ok =>
      { delivered := m.1 :: (processMessages rest).delivered,
        logged := (processMessages rest).logged,
        interrupted := (processMessages rest).interrupted }
    | HookRes.exc =>
      { delivered := m.1 :: (processMessages rest).delivered,
        logged := LogEntry.msgErr m.1 :: (processMessages rest).logged,
        interrupted := (processMessages rest).interrupted }

/-- One tick of `start` (lines 66-85): `on_step` under `except Exception`
(lines 68-70) — an `Exception` is logged and swallowed, while a
`KeyboardInterrupt` propagates before any message is processed — then the
message loop over the drained batch. -/
def runTick (stepRes : HookRes) (msgs : List (Event × HookRes)) : TickOut :=
  if stepRes = HookRes.interrupt then { delivered := [], logged := [], interrupted := true }
  else
    { delivered := (processMessages msgs).delivered,
      logged := (if stepRes = HookRes.exc then [LogEntry.stepErr] else []) ++
        (processMessages msgs).logged,
      interrupted := (processMessages msgs).interrupted }

/-- How one invocation of `start` ends as seen by `start_loop`:
a `KeyboardInterrupt` or some other exception. -/
inductive StartExit
  | interrupted
  | failed
deriving DecidableEq

/-- `SlackBot.start_loop` (lines 30-38) over the sequence of outcomes of
successive `start` invocations: a `KeyboardInterrupt` breaks the retry
loop (shutdown, `some k` after `k` restarts); any other exception is
logged and `start` is retried after the backoff; `none` means the supplied
trace ran out with the loop still retrying. -/
def startLoopRestarts : List StartExit → Option Nat
  | [] => none
  | StartExit.interrupted :: _ => some 0
  | StartExit.failed :: rest => (startLoopRestarts rest).map (fun k => k + 1)

theorem processMessages_clean :
    ∀ (l : List (Event × HookRes)), (∀ p ∈ l, p.2 ≠ HookRes.interrupt) →
      (processMessages l).interrupted = false ∧
      (processMessages l).delivered = l.map Prod.fst := by
  intro l
  induction l with
  | nil => intro _; exact ⟨rfl, rfl⟩
  | cons m rest ih =>
    intro h
    have hm : m.2 ≠ HookRes.interrupt := h m (List.mem_cons_self m rest)
    obtain ⟨ih1, ih2⟩ := ih (fun p hp => h p (List.mem_cons_of_mem m hp))
    cases hr : m.2 with
    | interrupt => exact absurd hr hm
    | ok => simp [processMessages, hr, ih1, ih2]
    | exc => simp [processMessages, hr, ih1, ih2]

theorem processMessages_append_clean :
    ∀ (pre rest : List (Event × HookRes)), (∀ p ∈ pre, p.2 ≠ HookRes.interrupt) →
      (processMessages (pre ++ rest)).delivered =
        pre.map Prod.fst ++ (processMessages rest).delivered ∧
      (processMessages (pre ++ rest)).logged =
        pre.filterMap (fun p => if p.2 = HookRes.exc then some (LogEntry.msgErr p.1) else none) ++
          (processMessages rest).logged ∧
      (processMessages (pre ++ rest)).interrupted = (processMessages rest).interrupted := by
  intro pre
  induction pre with
  | nil => intro rest _; exact ⟨rfl, rfl, rfl⟩
  | cons m pre' ih =>
    intro rest h
    have hm : m.2 ≠ HookRes.interrupt := h m (List.mem_cons_self m pre')
    obtain ⟨ih1, ih2, ih3⟩ := ih rest (fun p hp => h p (List.mem_cons_of_mem m hp))
    cases hr : m.2 with
    | interrupt => exact absurd hr hm
    | ok => simp [processMessages, hr, ih1, ih2, ih3]
    | exc => simp [processMessages, hr, ih1, ih2, ih3]

/-- Claim C6: hook failure isolation in the dispatch loop.  On a tick
whose step hook does not raise a cancellation: a step-hook `Exception` is
logged and never crashes the loop; a message-hook `Exception` for one
event is logged with that event attached and does not prevent the
remaining events of the batch from being delivered; a `KeyboardInterrupt`
inside a message hook is re-raised after that event, abandoning the rest
of the batch and unwinding the tick; and `start_loop` terminates (rather
than retrying) when `start` exits by `KeyboardInterrupt`. -/
theorem c6_hook_isolation (stepRes : HookRes) (msgs pre1 post1 pre2 post2 : List (Event × HookRes))
    (e1 e2 : Event) (exits : List StartExit) (hstep : stepRes ≠ HookRes.interrupt) :
    ((∀ p ∈ msgs, p.2 ≠ HookRes.interrupt) →
      (runTick stepRes msgs).interrupted = false ∧
      (runTick stepRes msgs).delivered = msgs.map Prod.fst) ∧
    (LogEntry.stepErr ∈ (runTick HookRes.exc msgs).logged) ∧
    (msgs = pre1 ++ (e1, HookRes.exc) :: post1 → (∀ p ∈ pre1, p.2 ≠ HookRes.interrupt) →
      LogEntry.msgErr e1 ∈ (runTick stepRes msgs).logged) ∧
    (msgs = pre2 ++ (e2, HookRes.interrupt) :: post2 → (∀ p ∈ pre2, p.2 ≠ HookRes.interrupt) →
      (runTick stepRes msgs).interrupted = true ∧
      (runTick stepRes msgs).delivered = pre2.map Prod.fst ++ [e2]) ∧
    startLoopRestarts (StartExit.interrupted :: exits) = some 0 := by
  refine ⟨?_, ?_, ?_, ?_, rfl⟩
  · intro hclean
    obtain ⟨h1, h2⟩ := processMessages_clean msgs hclean
    unfold runTick
    rw [if_neg hstep]
    exact ⟨h1, h2⟩
  · unfold runTick
    rw [if_neg (by simp)]
    simp
  · intro hm hpre
    subst hm
    obtain ⟨_, hlog, _⟩ := processMessages_append_clean pre1 ((e1, HookRes.exc) :: post1) hpre
    unfold runTick
    rw [if_neg hstep]
    simp only [hlog, processMessages]
    simp [List.mem_append]
  · intro hm hpre
    subst hm
    obtain ⟨hdel, _, hint⟩ :=
      processMessages_append_clean pre2 ((e2, HookRes.interrupt) :: post2) hpre
    unfold runTick
    rw [if_neg hstep]
    constructor
    · simp [hint, processMessages]
    · simp [hdel, processMessages]

/-- Concrete events used by the witnesses below. -/
def eva : Event := { ok := none, replyTo := none, ts := none, errMsg := none }

def evb : Event := { ok := none, replyTo := some 1, ts := none, errMsg := none }

def evc : Event := { ok := none, replyTo := some 2, ts := none, errMsg := none }

def evd : Event := { ok := none, replyTo := some 3, ts := none, errMsg := none }

theorem c6_hook_isolation_witness :
    ((runTick HookRes.exc [(eva, HookRes.exc), (evb, HookRes.ok)]).interrupted = false ∧
      (runTick HookRes.exc [(eva, HookRes.exc), (evb, HookRes.ok)]).delivered = [eva, evb]) ∧
    LogEntry.stepErr ∈ (runTick HookRes.exc [(eva, HookRes.exc), (evb, HookRes.ok)]).logged ∧
    LogEntry.msgErr eva ∈ (runTick HookRes.exc [(eva, HookRes.exc), (evb, HookRes.ok)]).logged ∧
    ((runTick HookRes.ok [(eva, HookRes.exc), (evb, HookRes.interrupt), (evc, HookRes.ok)]).interrupted = true ∧
      (runTick HookRes.ok [(eva, HookRes.exc), (evb, HookRes.interrupt), (evc, HookRes.ok)]).delivered = [eva, evb]) ∧
    startLoopRestarts [StartExit.interrupted] = some 0 := by
  obtain ⟨h1, h2, h3, _, h5⟩ :=
    c6_hook_isolation HookRes.exc [(eva, HookRes.exc), (evb, HookRes.ok)]
      [] [(evb, HookRes.ok)] [] [] eva eva [] (by decide)
  obtain ⟨_, _, _, h4, _⟩ :=
    c6_hook_isolation HookRes.ok [(eva, HookRes.exc), (evb, HookRes.interrupt), (evc, HookRes.ok)]
      [] [] [(eva, HookRes.exc)] [(evc, HookRes.ok)] eva evb [] (by decide)
  exact ⟨h1 (by decide), h2, h3 rfl (by decide), h4 rfl (by decide), h5⟩

theorem c5_peek_drain_witness :
    (∃ u v, (get_unprocessed_messages
        (runBuf (applyOp BufOp.peekNew [eva] [evb]).2 [(BufOp.peekAll, [])]).2 [evc]).1 =
      u ++ ((applyOp BufOp.peekNew [eva] [evb]).1 ++ v)) ∧
    (get_unprocessed_messages [eva] [evb]).2 = [] ∧
    (∀ r ∈ (runBuf (get_unprocessed_messages [eva] [evb]).2 [(BufOp.peekNew, [evd])]).1,
      eva ∉ r) ∧
    (runBuf [eva] [(BufOp.peekNew, [evd])]).2.Sublist
      ([eva] ++ ([(BufOp.peekNew, [evd])].map Prod.snd).flatten) := by
  obtain ⟨h1, h2, h3, h4⟩ :=
    c5_peek_drain [eva] [evb] [evc] eva BufOp.peekNew [(BufOp.peekAll, [])]
      [(BufOp.peekNew, [evd])]
  exact ⟨h1 (by decide) (by decide), h2, h3 (by decide) (by decide), h4⟩
